import Mathlib

/-!
Verification of the simulation core of a top-down arena survival game.

The definitions below are shallow embeddings of the TypeScript source:
  * `Utils.ts`    — math helpers (`clamp`, `circlesOverlap`) and balance data
  * `Player.ts`   — player damage / heal / leveling
  * `Enemy.ts`    — enemy damage
  * `Bullet.ts`   — projectile motion and out-of-bounds destruction
  * `Collision.ts`— spatial grid indexing and the five per-tick checks
  * `Spawner.ts`  — timed enemy production with boss milestones and caps
  * `Game.ts`     — dead-entity sweeping (swap-and-pop)

Real-number quantities of the source (positions, health, timers) are
modelled as rationals; counters as integers or naturals.
-/

-- =============================================
-- Utils.ts — math helpers
-- =============================================

/-- `Utils.ts` `clamp`: clamp value between min and max (inclusive). -/
def clamp (val lo hi : ℚ) : ℚ :=
  if val < lo then lo else if val > hi then hi else val

/-- `Utils.ts` `circlesOverlap`: circle-vs-circle overlap test without sqrt. -/
def circlesOverlap (x1 y1 r1 x2 y2 r2 : ℚ) : Bool :=
  decide ((x2 - x1) * (x2 - x1) + (y2 - y1) * (y2 - y1) ≤ (r1 + r2) * (r1 + r2))

/-- `Utils.ts` arena width constant. -/
def ARENA_WIDTH : ℚ := 3000

/-- `Utils.ts` arena height constant. -/
def ARENA_HEIGHT : ℚ := 2000

/-- `Utils.ts` spatial grid cell size constant. -/
def SPATIAL_CELL_SIZE : ℚ := 120

/-- `Bullet.ts` out-of-bounds buffer constant. -/
def BULLET_OOB_BUFFER : ℚ := 50

/-- `Utils.ts` `EnemyType` enum. -/
inductive EnemyType where
  | Basic
  | Fast
  | Tank
  | Boss
  | Ranged
  | Exploder
  deriving DecidableEq, Repr

/-- `Utils.ts` `PickupType` enum (from `Pickup.ts`). -/
inductive PickupType where
  | XP
  | Health
  deriving DecidableEq, Repr

/-- `Utils.ts` `BalanceConfig` — the tunables used by the verified
components (player combat, leveling, spawner pacing). -/
structure BalanceConfig where
  playerMaxHealth : ℚ
  playerInvulnDuration : ℚ
  xpPerLevelBase : ℚ
  xpPerLevelMult : ℚ
  baseSpawnInterval : ℚ
  minSpawnInterval : ℚ
  spawnIntervalDecay : ℚ
  maxSpawnPerTick : ℤ
  initialSpawnDelay : ℚ
  maxEnemies : ℤ
  bossInterval : ℤ
  dangerPeriod : ℚ
  spawnCountDivisor : ℚ
  deriving Repr

-- =============================================
-- Player.ts — combat-relevant state and operations
-- =============================================

/-- The `Player.ts` fields relevant to combat, XP and collision. -/
structure Player where
  x : ℚ
  y : ℚ
  radius : ℚ
  health : ℚ
  maxHealth : ℚ
  invulnTimer : ℚ
  isInvuln : Bool
  xp : ℚ
  level : ℤ
  killCount : ℤ
  alive : Bool
  deriving DecidableEq, Repr

namespace Player

/-- `Player.reset` — the run-scoped combat fields after `reset(x, y)`
together with `applyBalance`. -/
def reset (bal : BalanceConfig) (x y : ℚ) : Player :=
  { x := x
    y := y
    radius := 16
    health := bal.playerMaxHealth
    maxHealth := bal.playerMaxHealth
    invulnTimer := 0
    isInvuln := false
    xp := 0
    level := 1
    killCount := 0
    alive := true }

/-- `Player.takeDamage(amount)`: no-op while invulnerable; otherwise
subtract health, start the invulnerability window, flag death at zero.
Returns the updated player and whether the player died on this call. -/
def takeDamage (bal : BalanceConfig) (p : Player) (amount : ℚ) : Player × Bool :=
  if p.isInvuln then (p, false)
  else
    let p1 := { p with
      health := p.health - amount
      invulnTimer := bal.playerInvulnDuration
      isInvuln := true }
    if p1.health ≤ 0 then ({ p1 with health := 0, alive := false }, true)
    else (p1, false)

/-- `Player.heal(amount)`: add health, clamped to `maxHealth`. -/
def heal (p : Player) (amount : ℚ) : Player :=
  let h := p.health + amount
  { p with health := if h > p.maxHealth then p.maxHealth else h }

/-- `Player.xpToNextLevel()`. -/
def xpToNextLevel (bal : BalanceConfig) (p : Player) : ℚ :=
  (p.level : ℚ) * bal.xpPerLevelMult + bal.xpPerLevelBase

/-- `Player.checkLevelUp()`: single-threshold check; returns the updated
player and whether a level-up occurred. -/
def checkLevelUp (bal : BalanceConfig) (p : Player) : Player × Bool :=
  let needed := xpToNextLevel bal p
  if p.xp ≥ needed then
    ({ p with xp := p.xp - needed, level := p.level + 1 }, true)
  else (p, false)

end Player

/-- `Utils.ts` — the `NORMAL` difficulty preset (the verified fields). -/
def NORMAL : BalanceConfig :=
  { playerMaxHealth := 5
    playerInvulnDuration := 1
    xpPerLevelBase := 5
    xpPerLevelMult := 8
    baseSpawnInterval := 2
    minSpawnInterval := 3/10
    spawnIntervalDecay := 3/200
    maxSpawnPerTick := 5
    initialSpawnDelay := 2
    maxEnemies := 200
    bossInterval := 5
    dangerPeriod := 30
    spawnCountDivisor := 45 }

/-- A concrete player at the arena centre on Normal difficulty,
used as a test input. -/
def testPlayer : Player := Player.reset NORMAL 1500 1000

-- =============================================
-- C4 — takeDamage is a complete no-op while invulnerable
-- =============================================

/-- C4: `Player.takeDamage` called while the invulnerability window is
active (`isInvuln = true`) is a complete no-op: the entire player state
(health, invulnTimer, isInvuln, alive included) is unchanged and the call
returns `false`. -/
theorem takeDamage_noop_while_invuln (bal : BalanceConfig) (p : Player)
    (amount : ℚ) (h : p.isInvuln = true) :
    Player.takeDamage bal p amount = (p, false) := by
  simp [Player.takeDamage, h]

/-- Witness for C4 at a concrete invulnerable player. -/
theorem takeDamage_noop_while_invuln_witness :
    ({ testPlayer with isInvuln := true } : Player).isInvuln = true ∧
    Player.takeDamage NORMAL { testPlayer with isInvuln := true } 3 =
      ({ testPlayer with isInvuln := true }, false) :=
  ⟨rfl, takeDamage_noop_while_invuln NORMAL _ 3 rfl⟩

-- =============================================
-- C5 — checkLevelUp: exactly one level-up per check
-- =============================================

/-- C5: `Player.checkLevelUp` performs exactly one level-up when
`xp ≥ level × xpPerLevelMult + xpPerLevelBase` — xp is reduced by exactly
that threshold (not reset to zero), the level increments by exactly 1 and
the call returns `true` — and is the identity returning `false`
otherwise.  No second level-up occurs within the same call even when the
remaining xp still meets the new level's threshold. -/
theorem checkLevelUp_single_step (bal : BalanceConfig) (p : Player) :
    (p.xp ≥ (p.level : ℚ) * bal.xpPerLevelMult + bal.xpPerLevelBase →
      Player.checkLevelUp bal p =
        ({ p with
            xp := p.xp - ((p.level : ℚ) * bal.xpPerLevelMult + bal.xpPerLevelBase)
            level := p.level + 1 }, true)) ∧
    (¬ p.xp ≥ (p.level : ℚ) * bal.xpPerLevelMult + bal.xpPerLevelBase →
      Player.checkLevelUp bal p = (p, false)) := by
  constructor <;> intro h <;>
    simp [Player.checkLevelUp, Player.xpToNextLevel, h]

/-- Witness for C5: on Normal difficulty at level 1 the threshold is 13;
a player holding 20 xp levels up once, retaining 7 xp — enough for
nothing further within the same call even though a cascade would not
trigger anyway. -/
theorem checkLevelUp_single_step_witness :
    Player.checkLevelUp NORMAL { testPlayer with xp := 20 } =
      ({ testPlayer with xp := 7, level := 2 }, true) := by
  have h := (checkLevelUp_single_step NORMAL { testPlayer with xp := 20 }).1
    (by norm_num [testPlayer, Player.reset, NORMAL])
  simp only [testPlayer, Player.reset, NORMAL] at h ⊢
  norm_num at h
  exact h

-- =============================================
-- Enemy.ts — combat-relevant state and operations
-- =============================================
-- (claim C1 about check 4 follows after the collision definitions)

/-- `Enemy.ts` `FLASH_DURATION` — white-flash timer restart value. -/
def FLASH_DURATION : ℚ := 1/10

/-- The `Enemy.ts` fields relevant to combat and collision. -/
structure Enemy where
  x : ℚ
  y : ℚ
  radius : ℚ
  hp : ℚ
  maxHp : ℚ
  damage : ℚ
  xpValue : ℚ
  type : EnemyType
  alive : Bool
  contactCooldown : ℚ
  flashTimer : ℚ
  explodeRadius : ℚ
  deriving DecidableEq, Repr

namespace Enemy

/-- `Enemy.takeDamage(amount)`: subtract hp, restart the hit flash, flag
death (one-shot) at hp ≤ 0.  Returns the updated enemy and whether it
died on this call. -/
def takeDamage (e : Enemy) (amount : ℚ) : Enemy × Bool :=
  let e1 := { e with hp := e.hp - amount, flashTimer := FLASH_DURATION }
  if e1.hp ≤ 0 then ({ e1 with alive := false }, true) else (e1, false)

end Enemy

-- =============================================
-- Collision.ts — check 4: exploder detonation vs player
-- =============================================

/-- The check-4 overlap test: the player's circle against the exploder's
explosion radius (not its body radius). -/
def explosionHits (p : Player) (e : Enemy) : Bool :=
  circlesOverlap p.x p.y p.radius e.x e.y e.explodeRadius

/-- One iteration of the `Collision.checkAll` check-4 loop: if the
player circle overlaps the dead exploder's explosion radius, invoke
`Player.takeDamage` with the exploder's contact damage and record
player-hit. -/
def detonationStep (bal : BalanceConfig) (acc : Player × Bool) (exp : Enemy) :
    Player × Bool :=
  if explosionHits acc.1 exp then
    ((Player.takeDamage bal acc.1 exp.damage).1, true)
  else acc

/-- `Collision.checkAll`, check 4: exploder area damage to the player.
Skipped when the player is dead or no exploder died this tick; the
accumulated `playerHit` flag is threaded through. -/
def check4ExploderVsPlayer (bal : BalanceConfig) (p : Player)
    (exploderDeaths : List Enemy) (playerHit : Bool) : Player × Bool :=
  if p.alive && decide (0 < exploderDeaths.length) then
    exploderDeaths.foldl (detonationStep bal) (p, playerHit)
  else (p, playerHit)

/-- `Player.takeDamage` never changes the player's position or radius. -/
theorem takeDamage_preserves_geometry (bal : BalanceConfig) (p : Player)
    (a : ℚ) :
    (Player.takeDamage bal p a).1.x = p.x ∧
    (Player.takeDamage bal p a).1.y = p.y ∧
    (Player.takeDamage bal p a).1.radius = p.radius := by
  unfold Player.takeDamage
  split
  · simp
  · dsimp only
    split <;> simp

/-- The check-4 fold leaves an invulnerable player entirely unchanged. -/
theorem detonation_fold_invuln (bal : BalanceConfig) (q : Player)
    (hq : q.isInvuln = true) (hit : Bool) (exps : List Enemy) :
    (exps.foldl (detonationStep bal) (q, hit)).1 = q := by
  induction exps generalizing hit with
  | nil => rfl
  | cons e rest ih =>
      simp only [List.foldl_cons, detonationStep]
      split
      · simpa [Player.takeDamage, hq] using ih true
      · exact ih hit

/-- `Player.takeDamage` returns early while the invulnerability window
is active (helper characterization). -/
theorem takeDamage_skip (bal : BalanceConfig) (p : Player) (a : ℚ)
    (h : p.isInvuln = true) :
    Player.takeDamage bal p a = (p, false) := by
  simp [Player.takeDamage, h]

/-- `Player.heal` characterized as a record update. -/
theorem heal_def (p : Player) (a : ℚ) :
    Player.heal p a =
      { p with health :=
          if p.health + a > p.maxHealth then p.maxHealth else p.health + a } := rfl

/-- Characterization of `Player.takeDamage` when the invulnerability
window is inactive: health drops by the amount (clamped at zero, with the
death flag on depletion) and a fresh invulnerability window starts. -/
theorem takeDamage_applies (bal : BalanceConfig) (p : Player) (a : ℚ)
    (h : p.isInvuln = false) :
    (Player.takeDamage bal p a).1 =
      if p.health - a ≤ 0 then
        { p with health := 0, invulnTimer := bal.playerInvulnDuration,
                 isInvuln := true, alive := false }
      else
        { p with health := p.health - a,
                 invulnTimer := bal.playerInvulnDuration, isInvuln := true } := by
  unfold Player.takeDamage
  simp only [h, Bool.false_eq_true, if_false]
  split <;> simp_all

/-- When the player is not invulnerable, the health after the check-4
fold is determined by the first exploder whose explosion circle overlaps
the player: that detonation applies its damage and starts an
invulnerability window which blocks every later detonation in the list. -/
theorem detonation_fold_first_hit (bal : BalanceConfig) (q : Player)
    (hq : q.isInvuln = false) (hit : Bool) (exps : List Enemy) (e : Enemy)
    (hfind : exps.find? (explosionHits q) = some e) :
    (exps.foldl (detonationStep bal) (q, hit)).1.health =
      if q.health - e.damage ≤ 0 then 0 else q.health - e.damage := by
  induction exps generalizing hit with
  | nil => simp at hfind
  | cons a rest ih =>
      by_cases hov : explosionHits q a = true
      · have ha : a = e := by
          rw [List.find?_cons_of_pos _ hov] at hfind
          exact Option.some_injective _ hfind
        subst ha
        simp only [List.foldl_cons, detonationStep, hov, if_true]
        rw [detonation_fold_invuln bal _ (by rw [takeDamage_applies bal q a.damage hq]; split <;> rfl)]
        rw [takeDamage_applies bal q a.damage hq]
        split <;> rfl
      · rw [List.find?_cons_of_neg _ hov] at hfind
        simp only [List.foldl_cons, detonationStep, hov, if_false]
        exact ih hit hfind

/-- Once the check-4 fold has recorded a player hit, it stays recorded;
and any overlapping exploder in the list records a player hit. -/
theorem detonation_fold_playerHit (bal : BalanceConfig) (q : Player)
    (exps : List Enemy) (hit : Bool)
    (h : hit = true ∨ ∃ e ∈ exps, explosionHits q e = true) :
    (exps.foldl (detonationStep bal) (q, hit)).2 = true := by
  induction exps generalizing q hit with
  | nil =>
      rcases h with h | ⟨e, he, _⟩
      · simpa using h
      · simp at he
  | cons e rest ih =>
      simp only [List.foldl_cons, detonationStep]
      split
      · rename_i hov
        refine ih (Player.takeDamage bal q e.damage).1 true (Or.inl rfl)
      · rename_i hov
        rcases h with h | ⟨e', he', hove'⟩
        · exact ih q hit (Or.inl h)
        · rcases List.mem_cons.1 he' with rfl | hmem
          · exact absurd hove' (by simpa using hov)
          · exact ih q hit (Or.inr ⟨e', hmem, hove'⟩)

/-- A concrete dead exploder whose explosion circle (radius 80 on Normal)
overlaps the test player, used as a test input. -/
def testExploder : Enemy :=
  { x := 1500, y := 1040, radius := 16, hp := 0, maxHp := 2, damage := 3,
    xpValue := 2, type := EnemyType.Exploder, alive := false,
    contactCooldown := 0, flashTimer := 1/10, explodeRadius := 80 }

-- =============================================
-- C1 — exploder detonation vs player (corrected)
-- =============================================

/-- C1 counterexample: an alive player inside an active invulnerability
window overlapped by a recorded exploder death takes NO detonation damage
— `Player.takeDamage`'s invulnerability guard applies to check 4 as well,
so detonation damage does not ignore invulnerability as the claim states
(health stays 5 instead of dropping to 2). -/
theorem check4_invuln_counterexample :
    ({ testPlayer with isInvuln := true } : Player).alive = true ∧
    ({ testPlayer with isInvuln := true } : Player).isInvuln = true ∧
    explosionHits { testPlayer with isInvuln := true } testExploder = true ∧
    (check4ExploderVsPlayer NORMAL { testPlayer with isInvuln := true }
        [testExploder] false).1.health = 5 ∧
    ({ testPlayer with isInvuln := true } : Player).health - testExploder.damage ≠ 5 := by
  refine ⟨rfl, rfl, ?_, ?_, by norm_num [testPlayer, Player.reset, NORMAL, testExploder]⟩
  · norm_num [explosionHits, circlesOverlap, testPlayer, Player.reset, NORMAL, testExploder]
  · norm_num [check4ExploderVsPlayer, detonationStep, explosionHits, circlesOverlap,
      Player.takeDamage, testPlayer, Player.reset, NORMAL, testExploder]

/-- C1 amended: in check 4, every recorded exploder death whose explosion
circle (explodeRadius, not body radius) overlaps the alive player records
player-hit regardless of invulnerability, but the damage itself goes
through `Player.takeDamage` and therefore respects the invulnerability
window: an invulnerable player is left entirely unchanged, while a
vulnerable player takes exactly the first overlapping exploder's contact
damage (clamped at zero), the resulting invulnerability window blocking
any further detonation damage in the same tick. -/
theorem check4_detonation_behaviour (bal : BalanceConfig) (p : Player)
    (exps : List Enemy) (hit : Bool) (halive : p.alive = true) :
    ((∃ e ∈ exps, explosionHits p e = true) →
      (check4ExploderVsPlayer bal p exps hit).2 = true) ∧
    (p.isInvuln = true → (check4ExploderVsPlayer bal p exps hit).1 = p) ∧
    (p.isInvuln = false → ∀ e, exps.find? (explosionHits p) = some e →
      (check4ExploderVsPlayer bal p exps hit).1.health =
        if p.health - e.damage ≤ 0 then 0 else p.health - e.damage) := by
  cases exps with
  | nil =>
      refine ⟨?_, ?_, ?_⟩
      · rintro ⟨e, he, _⟩; simp at he
      · intro _; simp [check4ExploderVsPlayer]
      · intro _ e he; simp at he
  | cons a rest =>
      have hgate : check4ExploderVsPlayer bal p (a :: rest) hit =
          (a :: rest).foldl (detonationStep bal) (p, hit) := by
        simp [check4ExploderVsPlayer, halive]
      refine ⟨?_, ?_, ?_⟩
      · intro hex
        rw [hgate]
        exact detonation_fold_playerHit bal p (a :: rest) hit (Or.inr hex)
      · intro hinv
        rw [hgate]
        exact detonation_fold_invuln bal p hinv hit (a :: rest)
      · intro hinv e hfind
        rw [hgate]
        exact detonation_fold_first_hit bal p hinv hit (a :: rest) e hfind

/-- Witness for C1 (amended) at a vulnerable player and an overlapping
exploder: player-hit is recorded and health drops 5 → 2. -/
theorem check4_detonation_behaviour_witness :
    (check4ExploderVsPlayer NORMAL testPlayer [testExploder] false).2 = true ∧
    (check4ExploderVsPlayer NORMAL testPlayer [testExploder] false).1.health = 2 := by
  have hov : explosionHits testPlayer testExploder = true := by
    norm_num [explosionHits, circlesOverlap, testPlayer, Player.reset, NORMAL, testExploder]
  have h := check4_detonation_behaviour NORMAL testPlayer [testExploder] false rfl
  constructor
  · exact h.1 ⟨testExploder, by simp, hov⟩
  · have h3 := h.2.2 rfl testExploder (by rw [List.find?_cons_of_pos _ hov])
    rw [h3]
    norm_num [testPlayer, Player.reset, NORMAL, testExploder]

-- =============================================
-- C3 — health invariant over takeDamage / heal sequences
-- =============================================

/-- An event in a run of the player's combat API: one `takeDamage` call
or one `heal` call. -/
inductive PlayerEvent where
  | damage (amount : ℚ)
  | heal (amount : ℚ)
  deriving DecidableEq, Repr

/-- The amount carried by an event. -/
def eventAmount : PlayerEvent → ℚ
  | .damage a => a
  | .heal a => a

/-- Apply one event to the player (the Boolean results are discarded,
matching callers that ignore them). -/
def applyEvent (bal : BalanceConfig) (p : Player) : PlayerEvent → Player
  | .damage a => (Player.takeDamage bal p a).1
  | .heal a => Player.heal p a

/-- Run a sequence of `takeDamage` / `heal` calls. -/
def runEvents (bal : BalanceConfig) (p : Player) (evs : List PlayerEvent) : Player :=
  evs.foldl (applyEvent bal) p

/-- The per-state health invariant of `Player.ts`. -/
def PlayerInv (p : Player) : Prop :=
  0 ≤ p.health ∧ p.health ≤ p.maxHealth ∧ (p.alive = true → 0 < p.health)


/-- No combat event ever resurrects the player. -/
theorem applyEvent_alive_mono (bal : BalanceConfig) (p : Player)
    (ev : PlayerEvent) (h : p.alive = false) :
    (applyEvent bal p ev).alive = false := by
  cases ev with
  | damage a =>
      show (Player.takeDamage bal p a).1.alive = false
      by_cases hinv : p.isInvuln = true
      · rw [takeDamage_skip bal p a hinv]; exact h
      · rw [takeDamage_applies bal p a (by simpa using hinv)]
        split <;> simp [h]
  | heal a =>
      show (Player.heal p a).alive = false
      rw [heal_def]
      exact h

/-- Death is absorbing across any event sequence. -/
theorem runEvents_alive_mono (bal : BalanceConfig) (p : Player)
    (evs : List PlayerEvent) (h : p.alive = false) :
    (runEvents bal p evs).alive = false := by
  induction evs generalizing p with
  | nil => exact h
  | cons ev rest ih =>
      exact ih (applyEvent bal p ev) (applyEvent_alive_mono bal p ev h)

/-- One nonnegative event preserves the health invariant. -/
theorem applyEvent_inv (bal : BalanceConfig) (p : Player) (ev : PlayerEvent)
    (hp : PlayerInv p) (ha : 0 ≤ eventAmount ev) :
    PlayerInv (applyEvent bal p ev) := by
  obtain ⟨h0, hmax, halive⟩ := hp
  cases ev with
  | damage a =>
      simp only [eventAmount] at ha
      show PlayerInv (Player.takeDamage bal p a).1
      by_cases hinv : p.isInvuln = true
      · rw [takeDamage_skip bal p a hinv]
        exact ⟨h0, hmax, halive⟩
      · rw [takeDamage_applies bal p a (by simpa using hinv)]
        split
        · exact ⟨le_refl 0, le_trans h0 hmax, by simp⟩
        · rename_i hpos
          push_neg at hpos
          refine ⟨le_of_lt hpos, ?_, fun _ => hpos⟩
          show p.health - a ≤ p.maxHealth
          linarith
  | heal a =>
      simp only [eventAmount] at ha
      show PlayerInv (Player.heal p a)
      rw [heal_def]
      split
      · rename_i hgt
        exact ⟨le_trans h0 hmax, le_refl _, fun hal => lt_of_lt_of_le (halive hal) hmax⟩
      · rename_i hgt
        push_neg at hgt
        refine ⟨?_, hgt, fun hal => ?_⟩
        · show (0:ℚ) ≤ p.health + a
          linarith
        · have := halive hal
          show (0:ℚ) < p.health + a
          linarith

/-- The health invariant holds after any nonnegative event sequence. -/
theorem runEvents_inv (bal : BalanceConfig) (p : Player)
    (evs : List PlayerEvent) (hp : PlayerInv p)
    (hnn : ∀ ev ∈ evs, 0 ≤ eventAmount ev) :
    PlayerInv (runEvents bal p evs) := by
  induction evs generalizing p with
  | nil => exact hp
  | cons ev rest ih =>
      exact ih (applyEvent bal p ev)
        (applyEvent_inv bal p ev hp (hnn ev (List.mem_cons_self ev rest)))
        (fun e he => hnn e (List.mem_cons_of_mem ev he))

/-- If a run ends dead, some prefix of it ends with health exactly 0
(the killing `takeDamage` clamps health to 0 as it clears `alive`). -/
theorem runEvents_dead_reached_zero (bal : BalanceConfig) (p : Player)
    (evs : List PlayerEvent) (hp : p.alive = true)
    (hdead : (runEvents bal p evs).alive = false) :
    ∃ n, (runEvents bal p (evs.take n)).health = 0 := by
  induction evs using List.reverseRecOn with
  | nil =>
      simp [runEvents] at hdead
      rw [hp] at hdead
      cases hdead
  | append_singleton l ev ih =>
      have hrun : runEvents bal p (l ++ [ev]) = applyEvent bal (runEvents bal p l) ev := by
        rw [runEvents, List.foldl_append]; rfl
      by_cases hl : (runEvents bal p l).alive = false
      · obtain ⟨n, hn⟩ := ih hl
        refine ⟨min n l.length, ?_⟩
        have ht : (l ++ [ev]).take (min n l.length) = l.take (min n l.length) :=
          List.take_append_of_le_length (min_le_right n l.length)
        have h2 : l.take (min n l.length) = l.take n := by
          rw [List.take_eq_take]
          simp [min_assoc]
        rw [ht, h2]
        exact hn
      · refine ⟨l.length + 1, ?_⟩
        have htake : (l ++ [ev]).take (l.length + 1) = l ++ [ev] :=
          List.take_of_length_le (by simp)
        rw [htake, hrun]
        rw [Bool.not_eq_false] at hl
        have hflip : (applyEvent bal (runEvents bal p l) ev).alive = false := by
          rw [hrun] at hdead; exact hdead
        set q := runEvents bal p l with hq
        cases ev with
        | damage a =>
            show ((Player.takeDamage bal q a).1).health = 0
            by_cases hinv : q.isInvuln = true
            · exfalso
              have : (Player.takeDamage bal q a).1.alive = false := hflip
              rw [takeDamage_skip bal q a hinv] at this
              rw [hl] at this
              cases this
            · have hch := takeDamage_applies bal q a (by simpa using hinv)
              have hflip' : (Player.takeDamage bal q a).1.alive = false := hflip
              rw [hch] at hflip' ⊢
              by_cases hc : q.health - a ≤ 0
              · simp [hc]
              · exfalso
                rw [if_neg hc] at hflip'
                simp at hflip'
                rw [hl] at hflip'
                cases hflip'
        | heal a =>
            exfalso
            have : (Player.heal q a).alive = false := hflip
            rw [heal_def] at this
            simp at this
            rw [hl] at this
            cases this

/-- C3: starting from a freshly reset player, over any sequence of
`takeDamage` / `heal` calls with nonnegative amounts, health always stays
within `[0, maxHealth]`; `alive` is false exactly when health has reached
0 at some prefix of the sequence (it is set on the first such call, by
`runEvents_dead_reached_zero`); and once false, `alive` never reverts to
true. -/
theorem player_health_alive_invariant (bal : BalanceConfig) (x y : ℚ)
    (evs : List PlayerEvent)
    (hmax : 0 < bal.playerMaxHealth)
    (hnn : ∀ ev ∈ evs, 0 ≤ eventAmount ev) :
    (0 ≤ (runEvents bal (Player.reset bal x y) evs).health ∧
      (runEvents bal (Player.reset bal x y) evs).health ≤
        (runEvents bal (Player.reset bal x y) evs).maxHealth) ∧
    ((runEvents bal (Player.reset bal x y) evs).alive = false ↔
      ∃ n, (runEvents bal (Player.reset bal x y) (evs.take n)).health = 0) ∧
    (∀ n, (runEvents bal (Player.reset bal x y) (evs.take n)).alive = false →
      (runEvents bal (Player.reset bal x y) evs).alive = false) := by
  have hinv0 : PlayerInv (Player.reset bal x y) :=
    ⟨le_of_lt hmax, le_refl _, fun _ => hmax⟩
  have hfull : PlayerInv (runEvents bal (Player.reset bal x y) evs) :=
    runEvents_inv bal _ evs hinv0 hnn
  have hmono : ∀ n, (runEvents bal (Player.reset bal x y) (evs.take n)).alive = false →
      (runEvents bal (Player.reset bal x y) evs).alive = false := by
    intro n hdead
    have hsplit : runEvents bal (Player.reset bal x y) evs =
        runEvents bal (runEvents bal (Player.reset bal x y) (evs.take n)) (evs.drop n) := by
      rw [runEvents, runEvents, runEvents, ← List.foldl_append,
        List.take_append_drop]
    rw [hsplit]
    exact runEvents_alive_mono bal _ _ hdead
  refine ⟨⟨hfull.1, hfull.2.1⟩, ⟨?_, ?_⟩, hmono⟩
  · intro hdead
    exact runEvents_dead_reached_zero bal _ evs rfl hdead
  · rintro ⟨n, hzero⟩
    have hpre : PlayerInv (runEvents bal (Player.reset bal x y) (evs.take n)) :=
      runEvents_inv bal _ _ hinv0 (fun e he => hnn e (List.take_subset n evs he))
    have hdead : (runEvents bal (Player.reset bal x y) (evs.take n)).alive = false := by
      by_contra hnot
      rw [Bool.not_eq_false] at hnot
      have := hpre.2.2 hnot
      rw [hzero] at this
      exact lt_irrefl 0 this
    exact hmono n hdead

/-- Witness for C3: on Normal difficulty (maxHealth 5 > 0), the sequence
consisting of one `takeDamage(7)` call kills the player: health reaches 0
on that first call and `alive` ends false. -/
theorem player_health_alive_invariant_witness :
    (0:ℚ) < NORMAL.playerMaxHealth ∧
    (runEvents NORMAL (Player.reset NORMAL 1500 1000)
      [PlayerEvent.damage 7]).alive = false := by
  have h := player_health_alive_invariant NORMAL 1500 1000 [PlayerEvent.damage 7]
    (by norm_num [NORMAL])
    (by
      intro ev hev
      rcases List.mem_singleton.1 hev with rfl
      norm_num [eventAmount])
  refine ⟨by norm_num [NORMAL], ?_⟩
  refine h.2.1.mpr ⟨1, ?_⟩
  norm_num [runEvents, applyEvent, Player.takeDamage, Player.reset, NORMAL]

-- =============================================
-- Bullet.ts and Collision.ts check 1 — player bullet vs enemy
-- =============================================

/-- The `Bullet.ts` fields relevant to motion and collision. -/
structure Bullet where
  x : ℚ
  y : ℚ
  vx : ℚ
  vy : ℚ
  radius : ℚ
  damage : ℚ
  pierceLeft : ℤ
  alive : Bool
  isEnemyBullet : Bool
  deriving DecidableEq, Repr

namespace Bullet

/-- The `Bullet.update` out-of-bounds test: outside the arena extended by
`BULLET_OOB_BUFFER` on every side. -/
def outOfBounds (x y : ℚ) : Bool :=
  decide (x < -BULLET_OOB_BUFFER) || decide (x > ARENA_WIDTH + BULLET_OOB_BUFFER) ||
  decide (y < -BULLET_OOB_BUFFER) || decide (y > ARENA_HEIGHT + BULLET_OOB_BUFFER)

/-- `Bullet.update(dt)` (trail history omitted — rendering only):
advance by velocity × dt, then flag not-alive when outside arena bounds
plus the buffer. -/
def update (b : Bullet) (dt : ℚ) : Bullet :=
  let x1 := b.x + b.vx * dt
  let y1 := b.y + b.vy * dt
  { b with x := x1, y := y1,
           alive := if outOfBounds x1 y1 then false else b.alive }

end Bullet

/-- The check-1 exact overlap test: bullet circle vs enemy body circle. -/
def bulletHits (b : Bullet) (e : Enemy) : Bool :=
  circlesOverlap b.x b.y b.radius e.x e.y e.radius

/-- Output of the check-1 inner loop for one bullet. -/
structure Check1Out where
  bullet : Bullet
  enemies : List Enemy
  killed : List Enemy
  deriving Repr

/-- The `Collision.checkAll` check-1 inner loop for a single alive player
bullet over its candidate enemies, in query order: damage each
overlapping alive enemy, record kills, then resolve pierce — decrement
and continue if pierce remains, otherwise kill the bullet and stop. -/
def check1Loop (b : Bullet) : List Enemy → Check1Out
  | [] => ⟨b, [], []⟩
  | e :: rest =>
      if e.alive && bulletHits b e then
        if b.pierceLeft > 0 then
          ⟨(check1Loop { b with pierceLeft := b.pierceLeft - 1 } rest).bullet,
           (Enemy.takeDamage e b.damage).1 ::
             (check1Loop { b with pierceLeft := b.pierceLeft - 1 } rest).enemies,
           (if (Enemy.takeDamage e b.damage).2 then [(Enemy.takeDamage e b.damage).1] else []) ++
             (check1Loop { b with pierceLeft := b.pierceLeft - 1 } rest).killed⟩
        else
          ⟨{ b with alive := false }, (Enemy.takeDamage e b.damage).1 :: rest,
           if (Enemy.takeDamage e b.damage).2 then [(Enemy.takeDamage e b.damage).1] else []⟩
      else
        ⟨(check1Loop b rest).bullet, e :: (check1Loop b rest).enemies,
         (check1Loop b rest).killed⟩

/-- The check-1 body including the `if (!bullet.alive) continue` guard. -/
def check1Bullet (b : Bullet) (es : List Enemy) : Check1Out :=
  if b.alive then check1Loop b es else ⟨b, es, []⟩

/-- Number of candidates that are alive and overlap the bullet. -/
def hitCount (b : Bullet) (es : List Enemy) : ℕ :=
  (es.filter (fun e => e.alive && bulletHits b e)).length

/-- Reference semantics for the check-1 loop's effect on the candidate
list: damage the first `k` alive overlapping enemies, leave the rest as
they are. -/
def applyHits (b : Bullet) (k : ℕ) : List Enemy → List Enemy
  | [] => []
  | e :: rest =>
      if e.alive && bulletHits b e then
        match k with
        | 0 => e :: rest
        | k' + 1 => (Enemy.takeDamage e b.damage).1 :: applyHits b k' rest
      else e :: applyHits b k rest

/-- `applyHits` with no hits left is the identity. -/
theorem applyHits_zero (b : Bullet) (es : List Enemy) :
    applyHits b 0 es = es := by
  induction es with
  | nil => rfl
  | cons e rest ih =>
      unfold applyHits
      split
      · rfl
      · rw [ih]


/-- Overlap tests depend only on the bullet's geometry. -/
theorem bulletHits_congr (b1 b2 : Bullet) (e : Enemy) (hx : b1.x = b2.x)
    (hy : b1.y = b2.y) (hr : b1.radius = b2.radius) :
    bulletHits b1 e = bulletHits b2 e := by
  unfold bulletHits
  rw [hx, hy, hr]

theorem applyHits_congr (b1 b2 : Bullet) (hx : b1.x = b2.x) (hy : b1.y = b2.y)
    (hr : b1.radius = b2.radius) (hd : b1.damage = b2.damage) (k : ℕ)
    (es : List Enemy) :
    applyHits b1 k es = applyHits b2 k es := by
  induction es generalizing k with
  | nil => rfl
  | cons e rest ih =>
      unfold applyHits
      rw [bulletHits_congr b1 b2 e hx hy hr, hd]
      split
      · cases k with
        | zero => rfl
        | succ k' =>
            dsimp only
            rw [ih k']
      · rw [ih k]

example (b : Bullet) (e : Enemy) (rest : List Enemy)
    (hhit : (e.alive && bulletHits b e) = true) (hpos : b.pierceLeft > 0) :
    check1Loop b (e :: rest) =
      ⟨(check1Loop { b with pierceLeft := b.pierceLeft - 1 } rest).bullet,
       (Enemy.takeDamage e b.damage).1 ::
         (check1Loop { b with pierceLeft := b.pierceLeft - 1 } rest).enemies,
       (if (Enemy.takeDamage e b.damage).2 then [(Enemy.takeDamage e b.damage).1] else []) ++
         (check1Loop { b with pierceLeft := b.pierceLeft - 1 } rest).killed⟩ := by
  simp only [check1Loop, hhit, hpos]
  simp

theorem hitCount_pierce (b : Bullet) (z : ℤ) (es : List Enemy) :
    hitCount { b with pierceLeft := z } es = hitCount b es := rfl

theorem hitCount_cons_hit (b : Bullet) (e : Enemy) (rest : List Enemy)
    (h : (e.alive && bulletHits b e) = true) :
    hitCount b (e :: rest) = hitCount b rest + 1 := by
  simp [hitCount, h]

theorem hitCount_cons_miss (b : Bullet) (e : Enemy) (rest : List Enemy)
    (h : ¬ (e.alive && bulletHits b e) = true) :
    hitCount b (e :: rest) = hitCount b rest := by
  simp [hitCount, h]

theorem check1Loop_spec (es : List Enemy) (b : Bullet)
    (halive : b.alive = true) (hp : 0 ≤ b.pierceLeft) :
    (check1Loop b es).bullet.pierceLeft
        = b.pierceLeft - min (hitCount b es : ℤ) b.pierceLeft ∧
    ((check1Loop b es).bullet.alive = false ↔ b.pierceLeft < (hitCount b es : ℤ)) ∧
    (check1Loop b es).enemies
        = applyHits b (min (hitCount b es) (b.pierceLeft.toNat + 1)) es := by
  induction es generalizing b with
  | nil =>
      refine ⟨?_, ?_, ?_⟩
      · simp [check1Loop, hitCount]
        omega
      · simp [check1Loop, hitCount, halive]
        omega
      · simp [check1Loop, hitCount, applyHits]
  | cons e rest ih =>
      by_cases hhit : (e.alive && bulletHits b e) = true
      · by_cases hpos : b.pierceLeft > 0
        · -- pierce available: decrement and continue
          have hunfold : check1Loop b (e :: rest) =
              ⟨(check1Loop { b with pierceLeft := b.pierceLeft - 1 } rest).bullet,
               (Enemy.takeDamage e b.damage).1 ::
                 (check1Loop { b with pierceLeft := b.pierceLeft - 1 } rest).enemies,
               (if (Enemy.takeDamage e b.damage).2 then [(Enemy.takeDamage e b.damage).1] else []) ++
                 (check1Loop { b with pierceLeft := b.pierceLeft - 1 } rest).killed⟩ := by
            simp only [check1Loop, hhit, hpos]
            simp
          obtain ⟨ih1, ih2, ih3⟩ :=
            ih { b with pierceLeft := b.pierceLeft - 1 } halive (by show 0 ≤ b.pierceLeft - 1; omega)
          rw [hitCount_pierce] at ih1 ih2 ih3
          rw [applyHits_congr { b with pierceLeft := b.pierceLeft - 1 } b rfl rfl rfl rfl] at ih3
          rw [hunfold, hitCount_cons_hit b e rest hhit]
          refine ⟨?_, ?_, ?_⟩
          · show (check1Loop { b with pierceLeft := b.pierceLeft - 1 } rest).bullet.pierceLeft = _
            rw [ih1]
            show b.pierceLeft - 1 - _ = _
            push_cast
            omega
          · show (check1Loop { b with pierceLeft := b.pierceLeft - 1 } rest).bullet.alive = false ↔ _
            rw [ih2]
            show b.pierceLeft - 1 < _ ↔ _
            push_cast
            omega
          · show (Enemy.takeDamage e b.damage).1 ::
                (check1Loop { b with pierceLeft := b.pierceLeft - 1 } rest).enemies = _
            rw [ih3]
            have hk : min (hitCount b rest + 1) (b.pierceLeft.toNat + 1)
                = min (hitCount b rest) (({ b with pierceLeft := b.pierceLeft - 1 } : Bullet).pierceLeft.toNat + 1) + 1 := by
              show _ = min (hitCount b rest) ((b.pierceLeft - 1).toNat + 1) + 1
              omega
            rw [hk]
            conv_rhs => unfold applyHits
            rw [if_pos hhit]
        · -- blocking hit: bullet dies, loop stops
          have hzero : b.pierceLeft = 0 := by omega
          have hunfold : check1Loop b (e :: rest) =
              ⟨{ b with alive := false }, (Enemy.takeDamage e b.damage).1 :: rest,
               if (Enemy.takeDamage e b.damage).2 then [(Enemy.takeDamage e b.damage).1] else []⟩ := by
            simp only [check1Loop, hhit, hpos]
            simp
          rw [hunfold, hitCount_cons_hit b e rest hhit]
          refine ⟨?_, ?_, ?_⟩
          · show b.pierceLeft = _
            push_cast
            omega
          · show (false = false) ↔ _
            push_cast
            refine ⟨fun _ => ?_, fun _ => rfl⟩
            omega
          · show (Enemy.takeDamage e b.damage).1 :: rest = _
            have hk : min (hitCount b rest + 1) (b.pierceLeft.toNat + 1) = 1 := by omega
            rw [hk]
            conv_rhs => unfold applyHits
            rw [if_pos hhit]
            dsimp only
            rw [applyHits_zero]
      · -- miss: candidate untouched
        have hunfold : check1Loop b (e :: rest) =
            ⟨(check1Loop b rest).bullet, e :: (check1Loop b rest).enemies,
             (check1Loop b rest).killed⟩ := by
          simp only [check1Loop, hhit]
          simp
        obtain ⟨ih1, ih2, ih3⟩ := ih b halive hp
        rw [hunfold, hitCount_cons_miss b e rest hhit]
        refine ⟨ih1, ih2, ?_⟩
        show e :: (check1Loop b rest).enemies = _
        rw [ih3]
        conv_rhs => unfold applyHits
        rw [if_neg hhit]

/-- C2: for an alive player bullet with nonnegative pierce processed
against its candidate list in check 1: every alive overlapping candidate
up to and including the blocking hit receives the bullet's damage (the
`applyHits` equation); pierce is non-increasing and never negative; the
bullet leaves the check dead exactly when the number of alive overlapping
candidates exceeds its pierce (its pierce-0 hit); and in `Bullet.update`
it dies exactly when it leaves the arena bounds plus the buffer. -/
theorem bullet_pierce_lifecycle (b : Bullet) (es : List Enemy) (dt : ℚ)
    (halive : b.alive = true) (hp : 0 ≤ b.pierceLeft) :
    ((check1Bullet b es).bullet.pierceLeft ≤ b.pierceLeft ∧
     0 ≤ (check1Bullet b es).bullet.pierceLeft ∧
     ((check1Bullet b es).bullet.alive = false ↔
        b.pierceLeft < (hitCount b es : ℤ)) ∧
     (check1Bullet b es).enemies =
        applyHits b (min (hitCount b es) (b.pierceLeft.toNat + 1)) es) ∧
    ((Bullet.update b dt).alive = false ↔
      Bullet.outOfBounds (b.x + b.vx * dt) (b.y + b.vy * dt) = true) := by
  have hcb : check1Bullet b es = check1Loop b es := by
    simp [check1Bullet, halive]
  obtain ⟨h1, h2, h3⟩ := check1Loop_spec es b halive hp
  refine ⟨⟨?_, ?_, ?_, ?_⟩, ?_⟩
  · rw [hcb, h1]; omega
  · rw [hcb, h1]; omega
  · rw [hcb]; exact h2
  · rw [hcb]; exact h3
  · by_cases hoob : Bullet.outOfBounds (b.x + b.vx * dt) (b.y + b.vy * dt) = true <;>
      simp [Bullet.update, hoob, halive]

/-- A concrete alive player bullet with one pierce, used as a test input. -/
def testBullet : Bullet :=
  { x := 0, y := 0, vx := 500, vy := 0, radius := 4, damage := 1,
    pierceLeft := 1, alive := true, isEnemyBullet := false }

/-- A concrete 1-hp enemy overlapping `testBullet`. -/
def testEnemyA : Enemy :=
  { x := 0, y := 10, radius := 14, hp := 1, maxHp := 1, damage := 1,
    xpValue := 1, type := EnemyType.Fast, alive := true,
    contactCooldown := 0, flashTimer := 0, explodeRadius := 0 }

/-- A concrete 3-hp enemy overlapping `testBullet`. -/
def testEnemyB : Enemy :=
  { x := 10, y := 0, radius := 14, hp := 3, maxHp := 3, damage := 1,
    xpValue := 1, type := EnemyType.Basic, alive := true,
    contactCooldown := 0, flashTimer := 0, explodeRadius := 0 }

/-- Witness for C2: a pierce-1 bullet overlapping two enemies dies on the
second hit with pierce spent down from 1, and a bullet moved past the
left arena edge (x = −500 < −50) dies in `Bullet.update`. -/
theorem bullet_pierce_lifecycle_witness :
    (check1Bullet testBullet [testEnemyA, testEnemyB]).bullet.alive = false ∧
    (check1Bullet testBullet [testEnemyA, testEnemyB]).bullet.pierceLeft ≤ 1 ∧
    (Bullet.update { testBullet with vx := -500 } 1).alive = false := by
  have hA : (testEnemyA.alive && bulletHits testBullet testEnemyA) = true := by
    show (true && bulletHits testBullet testEnemyA) = true
    rw [Bool.true_and]
    show circlesOverlap 0 0 4 0 10 14 = true
    unfold circlesOverlap
    rw [decide_eq_true_eq]
    norm_num
  have hB : (testEnemyB.alive && bulletHits testBullet testEnemyB) = true := by
    show (true && bulletHits testBullet testEnemyB) = true
    rw [Bool.true_and]
    show circlesOverlap 0 0 4 10 0 14 = true
    unfold circlesOverlap
    rw [decide_eq_true_eq]
    norm_num
  have hcount : hitCount testBullet [testEnemyA, testEnemyB] = 2 := by
    simp [hitCount, List.filter_cons, hA, hB]
  have h := bullet_pierce_lifecycle testBullet [testEnemyA, testEnemyB] 0 rfl
    (by norm_num [testBullet])
  have hoob := (bullet_pierce_lifecycle { testBullet with vx := -500 } [] 1 rfl
    (by norm_num [testBullet])).2
  refine ⟨?_, ?_, ?_⟩
  · refine h.1.2.2.1.mpr ?_
    rw [hcount]
    norm_num [testBullet]
  · have := h.1.1
    simpa [testBullet] using this
  · refine hoob.mpr ?_
    simp only [Bullet.outOfBounds, Bool.or_eq_true, decide_eq_true_eq]
    norm_num [testBullet, ARENA_WIDTH, ARENA_HEIGHT, BULLET_OOB_BUFFER]

-- =============================================
-- Spawner.ts — timed enemy production
-- =============================================

/-- The `Spawner.ts` run-scoped state. -/
structure SpawnerState where
  spawnTimer : ℚ
  elapsedTime : ℚ
  lastBossDangerLevel : ℤ
  deriving DecidableEq, Repr

namespace Spawner

/-- `Spawner.reset()`. -/
def reset (bal : BalanceConfig) : SpawnerState :=
  { spawnTimer := bal.initialSpawnDelay, elapsedTime := 0,
    lastBossDangerLevel := 0 }

/-- `Spawner.getDangerLevel()`: `min(10, floor(elapsedTime / dangerPeriod) + 1)`. -/
def getDangerLevel (bal : BalanceConfig) (s : SpawnerState) : ℤ :=
  min 10 (⌊s.elapsedTime / bal.dangerPeriod⌋ + 1)

/-- `Spawner.getSpawnInterval()`: linear decay floored at a minimum. -/
def getSpawnInterval (bal : BalanceConfig) (s : SpawnerState) : ℚ :=
  max bal.minSpawnInterval
    (bal.baseSpawnInterval - s.elapsedTime * bal.spawnIntervalDecay)

/-- `Spawner.update(dt, …, currentCount, …)` — the spawn-decision logic:
advances time, fires the boss milestone (guarded by
`lastBossDangerLevel`), and on a spawn tick computes the regular batch
size from the per-tick formula capped by headroom under `maxEnemies`
(a just-spawned boss counts against the headroom).  Returns the new
state, whether a boss was emitted, and the number of regular enemies
emitted (their types and positions are random and not modelled). -/
def update (bal : BalanceConfig) (s : SpawnerState) (dt : ℚ)
    (currentCount : ℤ) : SpawnerState × Bool × ℕ :=
  let s1 : SpawnerState :=
    { s with elapsedTime := s.elapsedTime + dt, spawnTimer := s.spawnTimer - dt }
  let dangerLevel := getDangerLevel bal s1
  let bossSpawn : Bool :=
    decide (bal.bossInterval ≤ dangerLevel) &&
    decide (dangerLevel % bal.bossInterval = 0) &&
    decide (s1.lastBossDangerLevel < dangerLevel)
  let s2 := if bossSpawn then { s1 with lastBossDangerLevel := dangerLevel } else s1
  if s2.spawnTimer ≤ 0 then
    let s3 := { s2 with spawnTimer := getSpawnInterval bal s2 }
    let headroom : ℤ := bal.maxEnemies - currentCount - (if bossSpawn then 1 else 0)
    if headroom ≤ 0 then (s3, bossSpawn, 0)
    else
      let count : ℤ :=
        min headroom
          (min bal.maxSpawnPerTick (1 + ⌊s2.elapsedTime / bal.spawnCountDivisor⌋))
      (s3, bossSpawn, count.toNat)
  else (s2, bossSpawn, 0)

end Spawner

/-- `Spawner.update` always advances elapsed time by `dt`. -/
theorem spawner_update_elapsed (bal : BalanceConfig) (s : SpawnerState)
    (dt : ℚ) (c : ℤ) :
    (Spawner.update bal s dt c).1.elapsedTime = s.elapsedTime + dt := by
  simp only [Spawner.update]
  split_ifs <;> rfl

/-- The boss flag of `Spawner.update`, as the source's guard condition
on the post-advance danger level. -/
theorem spawner_update_boss_eq (bal : BalanceConfig) (s : SpawnerState)
    (dt : ℚ) (c : ℤ) :
    (Spawner.update bal s dt c).2.1 =
      (decide (bal.bossInterval ≤
          Spawner.getDangerLevel bal (Spawner.update bal s dt c).1) &&
       decide (Spawner.getDangerLevel bal (Spawner.update bal s dt c).1 %
          bal.bossInterval = 0) &&
       decide (s.lastBossDangerLevel <
          Spawner.getDangerLevel bal (Spawner.update bal s dt c).1)) := by
  have he : (Spawner.update bal s dt c).1.elapsedTime = s.elapsedTime + dt :=
    spawner_update_elapsed bal s dt c
  simp only [Spawner.getDangerLevel, he]
  simp only [Spawner.update, Spawner.getDangerLevel]
  split_ifs <;> rfl

/-- `Spawner.update` never decreases the boss guard, and records the
danger level when a boss fires. -/
theorem spawner_update_lastBoss (bal : BalanceConfig) (s : SpawnerState)
    (dt : ℚ) (c : ℤ) :
    (s.lastBossDangerLevel ≤ (Spawner.update bal s dt c).1.lastBossDangerLevel) ∧
    ((Spawner.update bal s dt c).2.1 = true →
      (Spawner.update bal s dt c).1.lastBossDangerLevel =
        Spawner.getDangerLevel bal (Spawner.update bal s dt c).1) := by
  have he : (Spawner.update bal s dt c).1.elapsedTime = s.elapsedTime + dt :=
    spawner_update_elapsed bal s dt c
  simp only [Spawner.getDangerLevel, he]
  simp only [Spawner.update, Spawner.getDangerLevel]
  split_ifs with h1 h2 h3 h4 h5 <;>
    simp_all [Bool.and_eq_true, decide_eq_true_eq] <;> omega

-- =============================================
-- C6 — boss milestone idempotence over a run
-- =============================================

/-- One `Spawner.update` call's state transition, over a (dt,
currentCount) input pair. -/
def spawnerStep (bal : BalanceConfig) (s : SpawnerState) (p : ℚ × ℤ) :
    SpawnerState :=
  (Spawner.update bal s p.1 p.2).1

/-- The spawner state reached after the first `n` update calls of a run
(a trace of (dt, currentCount) pairs), starting from `Spawner.reset`. -/
def spawnerStates (bal : BalanceConfig) (trace : List (ℚ × ℤ)) (n : ℕ) :
    SpawnerState :=
  (trace.take n).foldl (spawnerStep bal) (Spawner.reset bal)

/-- The full result of the `n`-th update call of a run. -/
def stepAt (bal : BalanceConfig) (trace : List (ℚ × ℤ)) (n : ℕ) :
    SpawnerState × Bool × ℕ :=
  Spawner.update bal (spawnerStates bal trace n)
    (trace.getD n (0, 0)).1 (trace.getD n (0, 0)).2

/-- Whether the `n`-th update call of a run emits a Boss-type enemy. -/
def bossAt (bal : BalanceConfig) (trace : List (ℚ × ℤ)) (n : ℕ) : Bool :=
  (stepAt bal trace n).2.1

/-- The danger level in effect during the `n`-th update call (computed
from the already-advanced elapsed time, as in the source). -/
def dangerAt (bal : BalanceConfig) (trace : List (ℚ × ℤ)) (n : ℕ) : ℤ :=
  Spawner.getDangerLevel bal (stepAt bal trace n).1

/-- Unfolding one step of the run. -/
theorem spawnerStates_succ (bal : BalanceConfig) (trace : List (ℚ × ℤ))
    (n : ℕ) (hn : n < trace.length) :
    spawnerStates bal trace (n + 1) = (stepAt bal trace n).1 := by
  rw [spawnerStates, List.take_succ, List.getElem?_eq_getElem hn]
  rw [List.foldl_append]
  rw [stepAt]
  rw [List.getD_eq_getElem trace (0, 0) hn]
  rfl

/-- The boss guard never decreases along a fold of updates. -/
theorem foldl_lastBoss_mono (bal : BalanceConfig) (l : List (ℚ × ℤ))
    (s : SpawnerState) :
    s.lastBossDangerLevel ≤ (l.foldl (spawnerStep bal) s).lastBossDangerLevel := by
  induction l generalizing s with
  | nil => exact le_refl _
  | cons p rest ih =>
      rw [List.foldl_cons]
      exact le_trans (spawner_update_lastBoss bal s p.1 p.2).1 (ih (spawnerStep bal s p))

/-- The boss guard never decreases along a run. -/
theorem spawnerStates_lastBoss_mono (bal : BalanceConfig)
    (trace : List (ℚ × ℤ)) (m n : ℕ) (hmn : m ≤ n) :
    (spawnerStates bal trace m).lastBossDangerLevel ≤
      (spawnerStates bal trace n).lastBossDangerLevel := by
  have hsplit : trace.take n = trace.take m ++ (trace.take n).drop m := by
    conv_lhs => rw [← List.take_append_drop m (trace.take n)]
    rw [List.take_take, min_eq_left hmn]
  simp only [spawnerStates]
  rw [hsplit, List.foldl_append]
  exact foldl_lastBoss_mono bal _ _

/-- C6: across a run of `Spawner.update` calls with positive dt from
`Spawner.reset`, a boss is emitted at step `n` only when the danger level
during that step is ≥ `bossInterval` and an exact multiple of it, and any
earlier boss-emitting step saw a strictly smaller danger level — so at
most one boss is ever emitted per distinct danger level, and repeated
calls within the same danger level never produce a second boss. -/
theorem boss_milestone_idempotent (bal : BalanceConfig)
    (trace : List (ℚ × ℤ)) (_hperiod : 0 < bal.dangerPeriod)
    (_hdts : ∀ p ∈ trace, 0 < p.1) :
    ∀ n, n < trace.length → bossAt bal trace n = true →
      (bal.bossInterval ≤ dangerAt bal trace n ∧
       dangerAt bal trace n % bal.bossInterval = 0) ∧
      (∀ m, m < n → bossAt bal trace m = true →
        dangerAt bal trace m < dangerAt bal trace n) := by
  intro n hn hboss
  have hb := spawner_update_boss_eq bal (spawnerStates bal trace n)
    (trace.getD n (0, 0)).1 (trace.getD n (0, 0)).2
  rw [bossAt, stepAt, hb] at hboss
  simp only [Bool.and_eq_true, decide_eq_true_eq] at hboss
  obtain ⟨⟨hge, hmod⟩, hlast⟩ := hboss
  refine ⟨⟨hge, hmod⟩, ?_⟩
  intro m hm hbm
  have hmlen : m < trace.length := lt_trans hm hn
  have hrec : (stepAt bal trace m).1.lastBossDangerLevel = dangerAt bal trace m := by
    rw [dangerAt]
    exact (spawner_update_lastBoss bal (spawnerStates bal trace m)
      (trace.getD m (0, 0)).1 (trace.getD m (0, 0)).2).2 hbm
  have hsucc : spawnerStates bal trace (m + 1) = (stepAt bal trace m).1 :=
    spawnerStates_succ bal trace m hmlen
  have hmono : (spawnerStates bal trace (m + 1)).lastBossDangerLevel ≤
      (spawnerStates bal trace n).lastBossDangerLevel :=
    spawnerStates_lastBoss_mono bal trace (m + 1) n hm
  rw [hsucc, hrec] at hmono
  calc dangerAt bal trace m
      ≤ (spawnerStates bal trace n).lastBossDangerLevel := hmono
    _ < dangerAt bal trace n := hlast

/-- Witness for C6: on Normal difficulty (dangerPeriod 30, bossInterval
5), a run of two updates with dt = 120 then dt = 150 emits a boss at both
steps — at danger level 5 and then at the strictly larger danger level
10, never twice within one level. -/
theorem boss_milestone_idempotent_witness :
    bossAt NORMAL [((120:ℚ), (0:ℤ)), (150, 0)] 0 = true ∧
    bossAt NORMAL [((120:ℚ), (0:ℤ)), (150, 0)] 1 = true ∧
    dangerAt NORMAL [((120:ℚ), (0:ℤ)), (150, 0)] 0 <
      dangerAt NORMAL [((120:ℚ), (0:ℤ)), (150, 0)] 1 := by
  have hb0 : bossAt NORMAL [((120:ℚ), (0:ℤ)), (150, 0)] 0 = true := by
    simp only [bossAt, stepAt, spawnerStates, spawnerStep, List.take,
      List.foldl, Spawner.update, Spawner.reset, Spawner.getDangerLevel,
      Spawner.getSpawnInterval, NORMAL, List.getD]
    norm_num
  have hb1 : bossAt NORMAL [((120:ℚ), (0:ℤ)), (150, 0)] 1 = true := by
    simp only [bossAt, stepAt, spawnerStates, spawnerStep, List.take,
      List.foldl, Spawner.update, Spawner.reset, Spawner.getDangerLevel,
      Spawner.getSpawnInterval, NORMAL, List.getD]
    norm_num
  have h := boss_milestone_idempotent NORMAL [((120:ℚ), (0:ℤ)), (150, 0)]
    (by norm_num [NORMAL])
    (by
      intro p hp
      rcases List.mem_cons.1 hp with rfl | hp'
      · norm_num
      · rcases List.mem_singleton.1 hp' with rfl
        norm_num)
    1 (by norm_num) hb1
  exact ⟨hb0, hb1, h.2 0 (by norm_num) hb0⟩

-- =============================================
-- C7 — regular spawn cap; boss exempt
-- =============================================

/-- C7: in any `Spawner.update` call, the regular (non-boss) batch size
is at most `min(maxSpawnPerTick, 1 + floor(elapsedTime / spawnCountDivisor))`
(elapsed time as advanced by this call) and also fits the remaining
headroom under `maxEnemies`, so a current count within the cap never
exceeds the cap after the batch; the boss flag is independent of the
current count and so is exempt from the cap. -/
theorem spawner_regular_cap (bal : BalanceConfig) (s : SpawnerState)
    (dt : ℚ) (currentCount c2 : ℤ)
    (hmax : 0 ≤ bal.maxSpawnPerTick)
    (helapsed : 0 ≤ s.elapsedTime + dt)
    (hdiv : 0 < bal.spawnCountDivisor) :
    (((Spawner.update bal s dt currentCount).2.2 : ℤ) ≤
        min bal.maxSpawnPerTick
          (1 + ⌊(s.elapsedTime + dt) / bal.spawnCountDivisor⌋)) ∧
    (currentCount ≤ bal.maxEnemies →
      currentCount + ((Spawner.update bal s dt currentCount).2.2 : ℤ) ≤
        bal.maxEnemies) ∧
    ((Spawner.update bal s dt currentCount).2.1 =
      (Spawner.update bal s dt c2).2.1) := by
  have hf : 0 ≤ ⌊(s.elapsedTime + dt) / bal.spawnCountDivisor⌋ :=
    Int.floor_nonneg.mpr (div_nonneg helapsed hdiv.le)
  refine ⟨?_, ?_, ?_⟩
  · simp only [Spawner.update]
    split_ifs <;> simp <;> omega
  · intro hcc
    simp only [Spawner.update]
    split_ifs <;> simp <;> omega
  · rw [spawner_update_boss_eq bal s dt currentCount,
      spawner_update_boss_eq bal s dt c2]
    simp only [Spawner.getDangerLevel, spawner_update_elapsed]

/-- Witness for C7: on Normal difficulty with 199 alive enemies out of a
200 cap, a spawn tick emits at most 1 regular enemy, keeping the count
within the cap. -/
theorem spawner_regular_cap_witness :
    (199:ℤ) + ((Spawner.update NORMAL ⟨0, 100, 0⟩ 1 199).2.2 : ℤ) ≤ 200 := by
  have h := spawner_regular_cap NORMAL ⟨0, 100, 0⟩ 1 199 0
    (by norm_num [NORMAL]) (by norm_num) (by norm_num [NORMAL])
  have h2 := h.2.1 (by norm_num [NORMAL])
  simpa [NORMAL] using h2

-- =============================================
-- Pickup.ts and Collision.ts check 5 — pickup vs player
-- =============================================

/-- The `Pickup.ts` fields relevant to collection. -/
structure Pickup where
  x : ℚ
  y : ℚ
  radius : ℚ
  type : PickupType
  value : ℚ
  alive : Bool
  deriving DecidableEq, Repr

/-- `Collision.checkAll`, check 5: every alive pickup overlapping the
player's circle expanded by the 5-pixel collection margin is marked
not-alive and its value accumulated into xpGained / healthGained by
type.  There is no gate on the player being alive.  Returns the updated
pickups and the two accumulated totals. -/
def check5PickupVsPlayer (p : Player) : List Pickup → List Pickup × ℚ × ℚ
  | [] => ([], 0, 0)
  | pk :: rest =>
      if pk.alive then
        if circlesOverlap p.x p.y (p.radius + 5) pk.x pk.y pk.radius then
          ({ pk with alive := false } :: (check5PickupVsPlayer p rest).1,
           (if pk.type = PickupType.XP then pk.value else 0) +
             (check5PickupVsPlayer p rest).2.1,
           (if pk.type = PickupType.Health then pk.value else 0) +
             (check5PickupVsPlayer p rest).2.2)
        else
          (pk :: (check5PickupVsPlayer p rest).1,
           (check5PickupVsPlayer p rest).2.1,
           (check5PickupVsPlayer p rest).2.2)
      else
        (pk :: (check5PickupVsPlayer p rest).1,
         (check5PickupVsPlayer p rest).2.1,
         (check5PickupVsPlayer p rest).2.2)

/-- C8: collision check 5 runs regardless of the player's alive flag —
flipping it changes nothing — and collects exactly the alive pickups
overlapping the player's circle expanded by the 5-pixel margin: each is
marked not-alive, XP values accumulate into xpGained and Health values
into healthGained. -/
theorem check5_ignores_player_death (p : Player) (b : Bool) (ps : List Pickup) :
    (check5PickupVsPlayer { p with alive := b } ps = check5PickupVsPlayer p ps) ∧
    ((check5PickupVsPlayer p ps).1 = ps.map (fun pk =>
        if pk.alive && circlesOverlap p.x p.y (p.radius + 5) pk.x pk.y pk.radius
        then { pk with alive := false } else pk)) ∧
    ((check5PickupVsPlayer p ps).2.1 = ((ps.filter (fun pk =>
        pk.alive && circlesOverlap p.x p.y (p.radius + 5) pk.x pk.y pk.radius
          && decide (pk.type = PickupType.XP))).map Pickup.value).sum) ∧
    ((check5PickupVsPlayer p ps).2.2 = ((ps.filter (fun pk =>
        pk.alive && circlesOverlap p.x p.y (p.radius + 5) pk.x pk.y pk.radius
          && decide (pk.type = PickupType.Health))).map Pickup.value).sum) := by
  obtain ⟨px, py, pr, phealth, pmax, pit, piv, pxp, plvl, pkc, palive⟩ := p
  induction ps with
  | nil => exact ⟨rfl, rfl, rfl, rfl⟩
  | cons pk rest ih =>
      obtain ⟨ih1, ih2, ih3, ih4⟩ := ih
      by_cases ha : pk.alive = true
      · by_cases hov : circlesOverlap px py (pr + 5) pk.x pk.y pk.radius = true
        · refine ⟨?_, ?_, ?_, ?_⟩
          · simp only [check5PickupVsPlayer, ha, hov, if_true]
            rw [ih1]
          · simp only [check5PickupVsPlayer, ha, hov, if_true, List.map_cons,
              Bool.true_and]
            rw [ih2]
          · simp only [check5PickupVsPlayer, ha, hov, if_true, Bool.true_and,
              List.filter_cons]
            by_cases hxp : pk.type = PickupType.XP
            · simp [hxp, ih3]
            · simp [hxp, ih3]
          · simp only [check5PickupVsPlayer, ha, hov, if_true, Bool.true_and,
              List.filter_cons]
            by_cases hh : pk.type = PickupType.Health
            · simp [hh, ih4]
            · simp [hh, ih4]
        · refine ⟨?_, ?_, ?_, ?_⟩
          · simp only [check5PickupVsPlayer, ha, hov, if_true, if_false]
            rw [ih1]
          · simp only [check5PickupVsPlayer, ha, hov, if_true, if_false,
              List.map_cons, Bool.true_and]
            rw [ih2]
            simp [hov]
          · simp only [check5PickupVsPlayer, ha, hov, if_true, if_false,
              Bool.true_and, List.filter_cons]
            simp [hov, ih3]
          · simp only [check5PickupVsPlayer, ha, hov, if_true, if_false,
              Bool.true_and, List.filter_cons]
            simp [hov, ih4]
      · have ha' : pk.alive = false := by
          cases h : pk.alive
          · rfl
          · exact absurd h ha
        refine ⟨?_, ?_, ?_, ?_⟩
        · simp only [check5PickupVsPlayer, ha', if_false, Bool.false_eq_true]
          rw [ih1]
        · simp only [check5PickupVsPlayer, ha', Bool.false_eq_true, if_false,
            List.map_cons, Bool.false_and]
          rw [ih2]
        · simp only [check5PickupVsPlayer, ha', Bool.false_eq_true, if_false,
            Bool.false_and, List.filter_cons]
          simp [ih3]
        · simp only [check5PickupVsPlayer, ha', Bool.false_eq_true, if_false,
            Bool.false_and, List.filter_cons]
          simp [ih4]

-- =============================================
-- Collision.ts SpatialGrid — clamped insertion indexing
-- =============================================

namespace SpatialGrid

/-- `SpatialGrid` constructor: `cols = ceil(width / cellSize) + 1`. -/
def cols (width cellSize : ℚ) : ℤ := ⌈width / cellSize⌉ + 1

/-- `SpatialGrid` constructor: `rows = ceil(height / cellSize) + 1`. -/
def rows (height cellSize : ℚ) : ℤ := ⌈height / cellSize⌉ + 1

/-- `SpatialGrid.insert`: the column index, `floor(x / cellSize)` clamped
to `[0, cols - 1]`. -/
def insertCol (width cellSize x : ℚ) : ℤ :=
  max 0 (min (cols width cellSize - 1) ⌊x / cellSize⌋)

/-- `SpatialGrid.insert`: the row index, `floor(y / cellSize)` clamped
to `[0, rows - 1]`. -/
def insertRow (height cellSize y : ℚ) : ℤ :=
  max 0 (min (rows height cellSize - 1) ⌊y / cellSize⌋)

/-- `SpatialGrid.getKey`: `row * cols + col`. -/
def getKey (colCount col row : ℤ) : ℤ := row * colCount + col

/-- `SpatialGrid.insert`'s cell index for an entity at (x, y). -/
def insertKey (width height cellSize x y : ℚ) : ℤ :=
  getKey (cols width cellSize) (insertCol width cellSize x)
    (insertRow height cellSize y)

end SpatialGrid

/-- C9: for a grid over a nonnegative extent with a positive cell size,
`SpatialGrid.insert` never indexes out of bounds: for any entity position
— including on or beyond the arena edge, or negative — the clamped
column lies in `[0, cols − 1]`, the clamped row in `[0, rows − 1]`, and
the cell index `row × cols + col` addresses one of the `cols × rows`
pre-allocated cells. -/
theorem spatialGrid_insert_in_bounds (width height cellSize x y : ℚ)
    (hw : 0 ≤ width) (hh : 0 ≤ height) (hc : 0 < cellSize) :
    (0 ≤ SpatialGrid.insertCol width cellSize x ∧
      SpatialGrid.insertCol width cellSize x ≤ SpatialGrid.cols width cellSize - 1) ∧
    (0 ≤ SpatialGrid.insertRow height cellSize y ∧
      SpatialGrid.insertRow height cellSize y ≤ SpatialGrid.rows height cellSize - 1) ∧
    (0 ≤ SpatialGrid.insertKey width height cellSize x y ∧
      SpatialGrid.insertKey width height cellSize x y <
        SpatialGrid.cols width cellSize * SpatialGrid.rows height cellSize) := by
  have hcols : 1 ≤ SpatialGrid.cols width cellSize := by
    have : (0:ℤ) ≤ ⌈width / cellSize⌉ :=
      Int.ceil_nonneg (div_nonneg hw hc.le)
    unfold SpatialGrid.cols
    omega
  have hrows : 1 ≤ SpatialGrid.rows height cellSize := by
    have : (0:ℤ) ≤ ⌈height / cellSize⌉ :=
      Int.ceil_nonneg (div_nonneg hh hc.le)
    unfold SpatialGrid.rows
    omega
  have hcol : 0 ≤ SpatialGrid.insertCol width cellSize x ∧
      SpatialGrid.insertCol width cellSize x ≤ SpatialGrid.cols width cellSize - 1 := by
    unfold SpatialGrid.insertCol
    omega
  have hrow : 0 ≤ SpatialGrid.insertRow height cellSize y ∧
      SpatialGrid.insertRow height cellSize y ≤ SpatialGrid.rows height cellSize - 1 := by
    unfold SpatialGrid.insertRow
    omega
  refine ⟨hcol, hrow, ?_, ?_⟩
  · unfold SpatialGrid.insertKey SpatialGrid.getKey
    have := mul_nonneg hrow.1 (by omega : (0:ℤ) ≤ SpatialGrid.cols width cellSize)
    omega
  · unfold SpatialGrid.insertKey SpatialGrid.getKey
    have hm : SpatialGrid.insertRow height cellSize y * SpatialGrid.cols width cellSize ≤
        (SpatialGrid.rows height cellSize - 1) * SpatialGrid.cols width cellSize :=
      mul_le_mul_of_nonneg_right hrow.2 (by omega)
    have he : (SpatialGrid.rows height cellSize - 1) * SpatialGrid.cols width cellSize =
        SpatialGrid.rows height cellSize * SpatialGrid.cols width cellSize -
          SpatialGrid.cols width cellSize := by ring
    have hcomm : SpatialGrid.cols width cellSize * SpatialGrid.rows height cellSize =
        SpatialGrid.rows height cellSize * SpatialGrid.cols width cellSize := by ring
    omega

/-- Witness for C9: the arena grid (3000 × 2000, cell 120) with an
entity exactly on the right arena edge and above the top edge
(x = 3000, y = −50) still indexes an existing cell. -/
theorem spatialGrid_insert_in_bounds_witness :
    0 ≤ SpatialGrid.insertKey 3000 2000 120 3000 (-50) ∧
    SpatialGrid.insertKey 3000 2000 120 3000 (-50) <
      SpatialGrid.cols 3000 120 * SpatialGrid.rows 2000 120 :=
  (spatialGrid_insert_in_bounds 3000 2000 120 3000 (-50)
    (by norm_num) (by norm_num) (by norm_num)).2.2

-- =============================================
-- Game.ts — removeDeadEntities (swap-and-pop)
-- =============================================

/-- An entity as seen by `Game.removeDeadEntities` (the source is generic
over `T extends { alive: boolean }`): an alive flag plus arbitrary
payload. -/
structure Ent (β : Type) where
  alive : Bool
  payload : β
  deriving DecidableEq, Repr

instance {β : Type} [Inhabited β] : Inhabited (Ent β) := ⟨⟨true, default⟩⟩

/-- The `Game.removeDeadEntities` loop body, iterating the index
downward: at a dead entity, overwrite it with the current last element
and pop.  `removeDeadAux l (i + 1)` processes indices `i, i − 1, …, 0`. -/
def removeDeadAux {β : Type} [Inhabited β] (l : List (Ent β)) : ℕ → List (Ent β)
  | 0 => l
  | i + 1 =>
      if (l.getD i default).alive then removeDeadAux l i
      else removeDeadAux ((l.set i (l.getD (l.length - 1) default)).dropLast) i

/-- `Game.removeDeadEntities(arr)`: run the loop from `arr.length - 1`
down to `0`. -/
def removeDeadEntities {β : Type} [Inhabited β] (l : List (Ent β)) : List (Ent β) :=
  removeDeadAux l l.length

/-- Loop invariant for `removeDeadAux`: when every entity at index ≥ i is
alive, the result is — up to order — the alive entities of the prefix
below i together with the whole suffix from i. -/
theorem removeDeadAux_perm {β : Type} [Inhabited β] (i : ℕ) :
    ∀ l : List (Ent β), i ≤ l.length →
    (∀ j, (hj : j < l.length) → i ≤ j → (l[j]).alive = true) →
    (removeDeadAux l i).Perm
      ((l.take i).filter (fun e => e.alive) ++ l.drop i) := by
  induction i with
  | zero =>
      intro l _ _
      simp [removeDeadAux]
  | succ i ih =>
      intro l hi htail
      have hilen : i < l.length := hi
      have hx : l.getD i default = l[i] := List.getD_eq_getElem l default hilen
      have htake : l.take (i + 1) = l.take i ++ [l[i]] := by
        rw [List.take_succ, List.getElem?_eq_getElem hilen]
        rfl
      rw [removeDeadAux, hx]
      by_cases halive : (l[i]).alive = true
      · rw [if_pos halive]
        have IH := ih l (le_of_lt hilen)
          (fun j hj hij => by
            rcases eq_or_lt_of_le hij with rfl | hlt
            · exact halive
            · exact htail j hj hlt)
        refine IH.trans (List.Perm.of_eq ?_)
        rw [htake, List.drop_eq_getElem_cons hilen, List.filter_append]
        simp [halive]
      · rw [if_neg halive]
        by_cases hlast : i + 1 = l.length
        · -- the dead entity is the last element: pure pop
          have hb : l.getD (l.length - 1) default = l[i] := by
            have h1 : l.length - 1 = i := by omega
            rw [h1, hx]
          have harr : (l.set i (l.getD (l.length - 1) default)).dropLast = l.take i := by
            rw [hb, List.dropLast_eq_take, List.length_set, List.set_take]
            have h1 : l.length - 1 = i := by omega
            rw [h1]
            exact List.set_eq_of_length_le (by simp [min_le_left])
          rw [harr]
          have IH := ih (l.take i)
            (by rw [List.length_take]; omega)
            (fun j hj hij => by
              rw [List.length_take] at hj
              omega)
          refine IH.trans (List.Perm.of_eq ?_)
          rw [List.take_take, min_self,
            List.drop_eq_nil_of_le (by rw [List.length_take]; omega),
            List.drop_eq_nil_of_le (by omega : l.length ≤ i + 1),
            htake, List.filter_append]
          simp [halive]
        · -- swap the (alive) last element into position i, then pop
          have hlt : i + 1 < l.length := lt_of_le_of_ne hi hlast
          have hlen1 : l.length - 1 < l.length := by omega
          have hb : l.getD (l.length - 1) default = l[l.length - 1] :=
            List.getD_eq_getElem l default hlen1
          set b := l[l.length - 1] with hbdef
          have hbalive : b.alive = true := htail (l.length - 1) hlen1 (by omega)
          rw [hb]
          have harr_take : ((l.set i b).dropLast).take i = l.take i := by
            rw [List.dropLast_eq_take, List.length_set, List.take_take,
              min_eq_left (by omega), List.set_take]
            exact List.set_eq_of_length_le (by simp [min_le_left])
          have harr_drop : ((l.set i b).dropLast).drop i =
              b :: (List.drop (i + 1) l).dropLast := by
            rw [List.dropLast_eq_take, List.length_set]
            have hsplit : l.length - 1 = i + (l.length - 1 - i) := by omega
            rw [hsplit, ← List.take_drop]
            rw [List.drop_eq_getElem_cons (by rw [List.length_set]; omega :
              i < (l.set i b).length)]
            rw [List.getElem_set_self]
            have hdropset : (l.set i b).drop (i + 1) = l.drop (i + 1) := by
              rw [List.drop_set]
              simp
            rw [hdropset]
            have hn : l.length - 1 - i = (l.length - 1 - i - 1) + 1 := by omega
            rw [hn, List.take_succ_cons]
            congr 1
            rw [List.dropLast_eq_take]
            congr 1
            rw [List.length_drop]
            omega
          have hlastD : (List.drop (i + 1) l).getLast? = some b := by
            rw [List.getLast?_eq_getElem?, List.getElem?_drop]
            have hidx : (i + 1) + ((List.drop (i + 1) l).length - 1) = l.length - 1 := by
              rw [List.length_drop]
              omega
            rw [hidx, List.getElem?_eq_getElem hlen1]
          have h2 : (List.drop (i + 1) l).dropLast ++ [b] = List.drop (i + 1) l :=
            List.dropLast_append_getLast? b (Option.mem_def.mpr hlastD)
          have IH := ih ((l.set i b).dropLast)
            (by rw [List.length_dropLast, List.length_set]; omega)
            (fun j hj hij => by
              rw [List.length_dropLast, List.length_set] at hj
              rw [List.getElem_dropLast]
              rcases eq_or_lt_of_le hij with rfl | hjlt
              · rw [List.getElem_set_self]
                exact hbalive
              · rw [List.getElem_set_ne (by omega)]
                exact htail j (by omega) (by omega))
          refine IH.trans ?_
          rw [harr_take, harr_drop]
          have hperm : (b :: (List.drop (i + 1) l).dropLast).Perm
              (List.drop (i + 1) l) :=
            ((List.perm_append_singleton b
              (List.drop (i + 1) l).dropLast).symm).trans (List.Perm.of_eq h2)
          have hfinal : (l.take (i + 1)).filter (fun e => e.alive) ++ l.drop (i + 1)
              = (l.take i).filter (fun e => e.alive) ++ List.drop (i + 1) l := by
            rw [htake, List.filter_append]
            simp [halive]
          rw [hfinal]
          exact List.Perm.append_left _ hperm

/-- C10: `Game.removeDeadEntities` removes exactly the elements whose
alive flag is false — the resulting array is, as a multiset
(permutation), precisely the alive elements of the original: no alive
element is lost or duplicated and no dead element remains, while element
order may change (swap-and-pop). -/
theorem removeDeadEntities_perm {β : Type} [Inhabited β] (l : List (Ent β)) :
    (removeDeadEntities l).Perm (l.filter (fun e => e.alive)) := by
  have h := removeDeadAux_perm l.length l (le_refl _)
    (fun j hj hij => absurd hj (by omega))
  rw [removeDeadEntities]
  simpa using h
